import Mathlib

/-
  Verification development for seb-grep (src/sebgrep.py).

  Shallow embedding: Python strings are modelled as lists of characters,
  Python `None`-able booleans as `Option Bool`, the classes `GrepConfig`,
  `GrepLine`, `GrepInput` and the generator `SebGrep.grep` as the Lean
  structures and functions below.  Each definition carries a doc comment
  naming the Python construct it embeds.
-/

namespace Sebgrep

/-- Python strings modelled as lists of characters. -/
abbrev Str := List Char

/-- Embedding of Python `str.lower()` as a per-character case fold
(simple case conversion; the spec explicitly excludes Unicode-aware
folding beyond simple case conversion). -/
def pyLower (s : Str) : Str := s.map Char.toLower

/-- Embedding of Python `str.split('\n')`: splits on every newline
character, keeping empty segments, and yields `[""]` on the empty
string (Python's `split` with an explicit separator never returns an
empty list). -/
def splitNl : Str → List Str
  | [] => [[]]
  | c :: cs =>
    if c = '\n' then [] :: splitNl cs
    else
      match splitNl cs with
      | [] => [[c]]
      | s :: ss => (c :: s) :: ss

/-- Does the string begin with the given segment?  Helper for the
embedding of Python `str.find`. -/
def headMatches : Str → Str → Bool
  | [], _ => true
  | _ :: _, [] => false
  | p :: ps, c :: cs => p == c && headMatches ps cs

/-- Embedding of the test `s.find(pat) != -1` of Python (sebgrep.py
line 147): is `pat` a contiguous substring of `s`? -/
def hasSubstr (pat : Str) : Str → Bool
  | [] => pat.isEmpty
  | c :: cs => headMatches pat (c :: cs) || hasSubstr pat cs

/-- Embedding of Python `str(n)` on an int (decimal rendering, `-` sign
for negatives). -/
def pyIntStr (n : Int) : Str := (toString n).data

/-- The resolved option set produced by `parse_arguments` (sebgrep.py
lines 8-73).  Argument parsing itself is an external collaborator; this
record is the dict the parser hands to `GrepConfig.__init__`.
`with_filename` is `none` when neither `-H` nor `-h` was passed;
`showLineNumber` embeds the parser destination `number_` + `pre` + `fix`
(spelled as in the spec to keep identifiers plain). -/
structure GrepParams where
  invert_match : Bool
  ignore_case : Bool
  showLineNumber : Bool
  with_filename : Option Bool
  only_files_with_matches : Bool
  only_files_without_match : Bool
  expr : Str
  file_paths : List Str
deriving DecidableEq

/-- Embedding of the `GrepConfig` object after `__init__` (sebgrep.py
lines 76-100). -/
structure GrepConfig where
  stdin : Bool
  file_paths : List Str
  expr : Str
  ignore_case : Bool
  invert_match : Bool
  showLineNumber : Bool
  only_files_with_matches : Bool
  only_files_without_match : Bool
  with_filename : Bool
  comparable_expr : Str
  comparable_exprs : List Str
deriving DecidableEq

/-- Embedding of `GrepConfig.__init__` (sebgrep.py lines 78-100):
derives `stdin` from emptiness of `file_paths`, resolves
`with_filename` (explicit flag wins, else `len(file_paths) > 1`),
lower-cases the expression iff `ignore_case`, and splits it on
newlines into `comparable_exprs`. -/
def GrepConfig.ofParams (p : GrepParams) : GrepConfig :=
  let base_expr : Str := if p.ignore_case then pyLower p.expr else p.expr
  ⟨p.file_paths.isEmpty,
   p.file_paths,
   p.expr,
   p.ignore_case,
   p.invert_match,
   p.showLineNumber,
   p.only_files_with_matches,
   p.only_files_without_match,
   (match p.with_filename with
    | none => decide (p.file_paths.length > 1)
    | some b => b),
   base_expr,
   splitNl base_expr⟩

/-- `p` with the `invert_match` field replaced (used to compare the two
invert settings of one and the same option set). -/
def GrepParams.setInvert (p : GrepParams) (b : Bool) : GrepParams :=
  ⟨b, p.ignore_case, p.showLineNumber, p.with_filename,
   p.only_files_with_matches, p.only_files_without_match,
   p.expr, p.file_paths⟩

/-- Embedding of a `GrepLine` object after `__init__` (sebgrep.py lines
108-113): the triple (file name, line number, raw line) plus the derived
`comparable_line` and the attached config. -/
structure GrepLine where
  file_name : Str
  n : Int
  line : Str
  comparable_line : Str
  grep_config : GrepConfig
deriving DecidableEq

/-- Embedding of `GrepLine.__init__`: `comparable_line` is the line
lower-cased iff `ignore_case`. -/
def mkGrepLine (file_name : Str) (n : Int) (line : Str) (cfg : GrepConfig) : GrepLine :=
  ⟨file_name, n, line, if cfg.ignore_case then pyLower line else line, cfg⟩

/-- The pattern loop of `GrepLine.match` (sebgrep.py lines 146-151):
for each pattern, if found return `not invert`; after the loop return
`invert`. -/
def matchAux (comparable_line : Str) (invert : Bool) : List Str → Bool
  | [] => invert
  | e :: es =>
    if hasSubstr e comparable_line then !invert
    else matchAux comparable_line invert es

/-- Embedding of `GrepLine.match` (sebgrep.py lines 141-151). -/
def GrepLine.matches (gl : GrepLine) : Bool :=
  matchAux gl.comparable_line gl.grep_config.invert_match gl.grep_config.comparable_exprs

/-- Embedding of `GrepLine.__str__` (sebgrep.py lines 115-128): in a
files-only mode the file name plus a newline; otherwise the optional
file name, the optional decimal line number and the raw line, joined by
colons. -/
def GrepLine.str (gl : GrepLine) : Str :=
  if gl.grep_config.only_files_with_matches || gl.grep_config.only_files_without_match then
    gl.file_name ++ ['\n']
  else
    List.intercalate [':']
      ((if gl.grep_config.with_filename then [gl.file_name] else []) ++
       (if gl.grep_config.showLineNumber then [pyIntStr gl.n] else []) ++
       [gl.line])

/-- A Python value handed to `GrepLine.__eq__`: either a `GrepLine`
(or an instance of a subclass, which carries the same data) or any
other object. -/
inductive PyValue where
  | line (gl : GrepLine)
  | nonLine (tag : Str)
deriving DecidableEq

/-- Embedding of `GrepLine.__eq__` (sebgrep.py lines 130-139): `False`
for non-`GrepLine` values, otherwise field-by-field comparison of
`n`, `line` and `file_name`. -/
def GrepLine.eq (self : GrepLine) : PyValue → Bool
  | .nonLine _ => false
  | .line other =>
    if self.n ≠ other.n then false
    else if self.line ≠ other.line then false
    else if self.file_name ≠ other.file_name then false
    else true

/-- What a `GrepInput`'s `input_` stream is bound to: the process's
standard input, or a file handle opened on a path. -/
inductive InputBinding where
  | standardInput
  | fileHandle (path : Str)
deriving DecidableEq

/-- Embedding of the `GrepInput` pair (sebgrep.py lines 154-158):
display name plus the underlying stream. -/
structure GrepInput where
  input_name : Str
  binding : InputBinding
deriving DecidableEq

/-- The fixed sentinel name for standard input. -/
def stdinName : Str := ['s', 't', 'd', 'i', 'n']

/-- Embedding of `SebGrep.compute_inputs` (sebgrep.py lines 166-173):
one stdin-bound input when the `stdin` flag is set, else one
file-handle input per requested path, in order. -/
def compute_inputs (cfg : GrepConfig) : List GrepInput :=
  if cfg.stdin then [⟨stdinName, InputBinding.standardInput⟩]
  else cfg.file_paths.map (fun path => ⟨path, InputBinding.fileHandle path⟩)

/-- One source's pass of the loop body of `SebGrep.grep` (sebgrep.py
lines 180-195) under full consumption, ignoring resource events:
returns the list of `GrepLine`s yielded for this source (including the
synthetic `(name, -1, "")` record that the `finally` yields in
files-without-match mode when the counter stayed zero) together with
the number of lines read from the source.  `idx` is the 0-based
`enumerate` index of the next line, `counter` the running
`match_counter`. -/
def grepSourceAux (cfg : GrepConfig) (name : Str) : List Str → Nat → Nat → List GrepLine × Nat
  | [], _, counter =>
    (if cfg.only_files_without_match && counter == 0 then
       [mkGrepLine name (-1) [] cfg]
     else [], 0)
  | l :: ls, idx, counter =>
    let gl := mkGrepLine name (Int.ofNat (idx + 1)) l cfg
    if gl.matches then
      if !cfg.only_files_without_match then
        if cfg.only_files_with_matches then ([gl], 1)
        else
          let r := grepSourceAux cfg name ls (idx + 1) (counter + 1)
          (gl :: r.1, r.2 + 1)
      else ([], 1)
    else
      let r := grepSourceAux cfg name ls (idx + 1) counter
      (r.1, r.2 + 1)

/-- One source's emissions and lines-read count (counter and index
start at zero, as in `SebGrep.grep`). -/
def grepSource (cfg : GrepConfig) (name : Str) (lines : List Str) : List GrepLine × Nat :=
  grepSourceAux cfg name lines 0 0

/-- The full emission sequence of `SebGrep.grep` over named sources
under full consumption: concatenation of the per-source emissions, in
source order. -/
def grep (cfg : GrepConfig) (sources : List (Str × List Str)) : List GrepLine :=
  (sources.map (fun s => (grepSource cfg s.1 s.2).1)).flatten

/-- The per-line classifier of the spec (section 4.2): some pattern is
a contiguous substring of the (case-folded iff `ignore_case`) line,
XOR `invert_match`. -/
def lineMatches (cfg : GrepConfig) (l : Str) : Bool :=
  Bool.xor
    (cfg.comparable_exprs.any (fun e => hasSubstr e (if cfg.ignore_case then pyLower l else l)))
    cfg.invert_match

/-! ### Resource-event model of the generator `SebGrep.grep`

To settle the resource-release claim we model the generator's observable
events: each source being opened, each `GrepLine` being delivered to the
consumer, and each underlying stream being closed.  The consumer either
drains the generator (`pulls = none`) or pulls exactly `k` results and
then closes/abandons the generator (`pulls = some k`), which — per
Python generator semantics — raises `GeneratorExit` at the yield where
the generator is suspended; `finally` blocks then run, except that a
statement of a `finally` block that raises (e.g. a `yield` executed
while a `GeneratorExit` is propagating) skips the rest of that
`finally` block. -/

/-- An observable event of a run of `SebGrep.grep`. -/
inductive ScanEvent where
  | opened (name : Str)
  | yielded (gl : GrepLine)
  | closed (name : Str)
deriving DecidableEq

/-- How the per-source line loop of `SebGrep.grep` ended:
`completed counter budget` — the `for` loop finished or was left via
`break`, with the given `match_counter` and remaining pull budget, and
control reaches the `finally` normally; `exited counter` — the
consumer abandoned the generator while it was suspended at the in-loop
`yield` (sebgrep.py line 187), so `GeneratorExit` is pending when the
`finally` runs. -/
inductive LoopEnd where
  | completed (counter : Nat) (budget : Option Nat)
  | exited (counter : Nat)
deriving DecidableEq

/-- The line loop of `SebGrep.grep` (sebgrep.py lines 182-191) with an
explicit pull budget: a yield with budget `some 1` is the last result
the consumer accepts, after which the generator is abandoned at that
yield. -/
def runLines (cfg : GrepConfig) (name : Str) : List Str → Nat → Nat → Option Nat → List ScanEvent × LoopEnd
  | [], _, counter, budget => ([], .completed counter budget)
  | l :: ls, idx, counter, budget =>
    let gl := mkGrepLine name (Int.ofNat (idx + 1)) l cfg
    if gl.matches then
      if !cfg.only_files_without_match then
        match budget with
        | some 0 => ([], .exited counter)
        | some 1 => ([.yielded gl], .exited (counter + 1))
        | some (b + 2) =>
          if cfg.only_files_with_matches then
            ([.yielded gl], .completed (counter + 1) (some (b + 1)))
          else
            let r := runLines cfg name ls (idx + 1) (counter + 1) (some (b + 1))
            (.yielded gl :: r.1, r.2)
        | none =>
          if cfg.only_files_with_matches then
            ([.yielded gl], .completed (counter + 1) none)
          else
            let r := runLines cfg name ls (idx + 1) (counter + 1) none
            (.yielded gl :: r.1, r.2)
      else ([], .completed (counter + 1) budget)
    else runLines cfg name ls (idx + 1) counter budget

/-- The `finally` block of `SebGrep.grep` (sebgrep.py lines 192-195).
Returns the events it produces, and `some budget` when the generator
survives the block and proceeds to the next source, `none` when the
generator terminates here.  On the `exited` path `GeneratorExit` is
pending: if the `finally` reaches its `yield` (files-without-match
with a zero counter) that yield raises and the `close()` on the next
line is skipped; otherwise `close()` runs and the generator ends.  On
the `completed` path, the synthetic yield (when due) consumes budget
like any other yield — and if the consumer abandons at it, the
`close()` after it never runs. -/
def sourceFinally (cfg : GrepConfig) (name : Str) : LoopEnd → List ScanEvent × Option (Option Nat)
  | .exited counter =>
    if cfg.only_files_without_match && counter == 0 then ([], none)
    else ([.closed name], none)
  | .completed counter budget =>
    if cfg.only_files_without_match && counter == 0 then
      match budget with
      | some 0 => ([], none)
      | some 1 => ([.yielded (mkGrepLine name (-1) [] cfg)], none)
      | some (b + 2) =>
        ([.yielded (mkGrepLine name (-1) [] cfg), .closed name], some (some (b + 1)))
      | none =>
        ([.yielded (mkGrepLine name (-1) [] cfg), .closed name], some none)
    else ([.closed name], some budget)

/-- The source loop of `SebGrep.grep` (sebgrep.py lines 177-195) over
already-opened sources. -/
def runSources (cfg : GrepConfig) : List (Str × List Str) → Option Nat → List ScanEvent
  | [], _ => []
  | s :: rest, budget =>
    let r := runLines cfg s.1 s.2 0 0 budget
    let f := sourceFinally cfg s.1 r.2
    match f.2 with
    | none => r.1 ++ f.1
    | some budget2 => r.1 ++ f.1 ++ runSources cfg rest budget2

/-- A full run of the generator `SebGrep.grep` (sebgrep.py lines
175-195) against sources with the given names and line contents, under
a consumer that pulls `k` results and then abandons (`pulls = some k`)
or drains the generator (`pulls = none`).  On the first pull the
generator body starts: `compute_inputs` opens every source up front
(sebgrep.py line 176), then the source loop runs.  With `pulls = some
0` the generator body never starts, so nothing is opened. -/
def pyGrepRun (cfg : GrepConfig) (sources : List (Str × List Str)) (pulls : Option Nat) : List ScanEvent :=
  match pulls with
  | some 0 => []
  | _ => sources.map (fun s => ScanEvent.opened s.1) ++ runSources cfg sources pulls

/-! ### Helper lemmas -/

theorem headMatches_iff (p : Str) : ∀ s : Str, headMatches p s = true ↔ ∃ t, s = p ++ t := by
  induction p with
  | nil => intro s; simp [headMatches]
  | cons a ps ih =>
    intro s
    cases s with
    | nil => simp [headMatches]
    | cons c cs =>
      simp only [headMatches, Bool.and_eq_true, beq_iff_eq, ih cs, List.cons_append,
        List.cons.injEq]
      constructor
      · rintro ⟨rfl, t, rfl⟩; exact ⟨t, rfl, rfl⟩
      · rintro ⟨t, rfl, rfl⟩; exact ⟨rfl, t, rfl⟩

theorem hasSubstr_iff (pat s : Str) : hasSubstr pat s = true ↔ ∃ u v, s = u ++ pat ++ v := by
  induction s with
  | nil =>
    constructor
    · intro h
      have hp : pat = [] := by simpa [hasSubstr, List.isEmpty_iff] using h
      exact ⟨[], [], by simp [hp]⟩
    · rintro ⟨u, v, huv⟩
      have hu : u = [] ∧ pat = [] ∧ v = [] := by
        simpa [List.append_eq_nil] using huv.symm
      simp [hasSubstr, hu.2.1]
  | cons c cs ih =>
    simp only [hasSubstr, Bool.or_eq_true]
    constructor
    · rintro (h | h)
      · obtain ⟨t, ht⟩ := (headMatches_iff pat (c :: cs)).1 h
        exact ⟨[], t, by simpa using ht⟩
      · obtain ⟨u, v, huv⟩ := ih.1 h
        exact ⟨c :: u, v, by simp [huv]⟩
    · rintro ⟨u, v, huv⟩
      cases u with
      | nil =>
        exact Or.inl ((headMatches_iff pat (c :: cs)).2 ⟨v, by simpa using huv⟩)
      | cons a u =>
        refine Or.inr (ih.2 ⟨u, v, ?_⟩)
        have h2 : c = a ∧ cs = u ++ pat ++ v := by simpa using huv
        exact h2.2

theorem hasSubstr_nil (s : Str) : hasSubstr [] s = true := by
  cases s <;> simp [hasSubstr, headMatches]

theorem matchAux_eq (line : Str) (invert : Bool) (es : List Str) :
    matchAux line invert es = Bool.xor (es.any (fun e => hasSubstr e line)) invert := by
  induction es with
  | nil => cases invert <;> simp [matchAux]
  | cons e es ih =>
    simp only [matchAux, List.any_cons]
    by_cases h : hasSubstr e line = true
    · simp only [h, if_true, Bool.true_or]
      cases invert <;> simp
    · have h' : hasSubstr e line = false := by simpa using h
      simp [h', ih]

theorem matches_eq_lineMatches (f : Str) (n : Int) (l : Str) (cfg : GrepConfig) :
    (mkGrepLine f n l cfg).matches = lineMatches cfg l := by
  simp [mkGrepLine, GrepLine.matches, lineMatches, matchAux_eq]

theorem splitNl_ne_nil (s : Str) : splitNl s ≠ [] := by
  cases s with
  | nil => simp [splitNl]
  | cons c cs =>
    rw [splitNl]
    split
    · simp
    · split <;> simp

theorem toLower_newline : Char.toLower '\n' = '\n' := by decide

theorem eq_newline_of_toLower {c : Char} (h : Char.toLower c = '\n') : c = '\n' := by
  simp only [Char.toLower] at h
  split at h
  · next hc =>
    exfalso
    obtain ⟨h1, h2⟩ := hc
    generalize hg : Char.toNat c = m at h1 h2 h
    interval_cases m <;> exact absurd h (by decide)
  · exact h

theorem splitNl_pyLower (e : Str) : splitNl (pyLower e) = (splitNl e).map pyLower := by
  induction e with
  | nil => simp [splitNl, pyLower]
  | cons c cs ih =>
    have hmap : pyLower (c :: cs) = Char.toLower c :: pyLower cs := rfl
    by_cases h : c = '\n'
    · subst h
      rw [hmap, toLower_newline, splitNl, if_pos rfl, splitNl, if_pos rfl, ih]
      simp [pyLower]
    · have h2 : Char.toLower c ≠ '\n' := fun hh => h (eq_newline_of_toLower hh)
      obtain ⟨s0, ss0, hs⟩ : ∃ s0 ss0, splitNl cs = s0 :: ss0 := by
        cases hsp : splitNl cs with
        | nil => exact absurd hsp (splitNl_ne_nil cs)
        | cons a b => exact ⟨a, b, rfl⟩
      have lhs : splitNl (pyLower (c :: cs)) = (Char.toLower c :: pyLower s0) :: List.map pyLower ss0 := by
        rw [hmap, splitNl, if_neg h2, ih, hs]
        simp
      have rhs : (splitNl (c :: cs)).map pyLower = (Char.toLower c :: pyLower s0) :: List.map pyLower ss0 := by
        rw [splitNl, if_neg h, hs]
        simp [pyLower]
      rw [lhs, rhs]

theorem grepSourceAux_skip (cfg : GrepConfig) (name : Str) (rest : List Str) :
    ∀ pre : List Str, (∀ l ∈ pre, lineMatches cfg l = false) →
      ∀ idx counter,
        grepSourceAux cfg name (pre ++ rest) idx counter
          = ((grepSourceAux cfg name rest (idx + pre.length) counter).1,
             pre.length + (grepSourceAux cfg name rest (idx + pre.length) counter).2) := by
  intro pre
  induction pre with
  | nil => intro _ idx counter; simp
  | cons l pre ih =>
    intro h idx counter
    have hl : lineMatches cfg l = false := h l (by simp)
    rw [List.cons_append, grepSourceAux]
    simp only [matches_eq_lineMatches, hl, Bool.false_eq_true, if_false]
    rw [ih (fun x hx => h x (by simp [hx])) (idx + 1) counter]
    have harith : idx + 1 + pre.length = idx + (pre.length + 1) := by omega
    simp only [harith, List.length_cons, Prod.mk.injEq]
    exact ⟨trivial, by omega⟩

theorem grepSourceAux_nomatch (cfg : GrepConfig) (name : Str) :
    ∀ lines : List Str, (∀ l ∈ lines, lineMatches cfg l = false) →
      ∀ idx counter,
        grepSourceAux cfg name lines idx counter
          = (if cfg.only_files_without_match && counter == 0 then
               [mkGrepLine name (-1) [] cfg]
             else [], lines.length) := by
  intro lines
  induction lines with
  | nil => intro _ idx counter; simp [grepSourceAux]
  | cons l ls ih =>
    intro h idx counter
    have hl : lineMatches cfg l = false := h l (by simp)
    rw [grepSourceAux]
    simp only [matches_eq_lineMatches, hl, Bool.false_eq_true, if_false]
    rw [ih (fun x hx => h x (by simp [hx])) (idx + 1) counter]
    simp

theorem grepSourceAux_map_str_l (cfg : GrepConfig)
    (hl : cfg.only_files_with_matches = true)
    (hL : cfg.only_files_without_match = false) (name : Str) :
    ∀ lines : List Str, ∀ idx counter,
      ((grepSourceAux cfg name lines idx counter).1).map GrepLine.str
        = if lines.any (lineMatches cfg) then [name ++ ['\n']] else [] := by
  intro lines
  induction lines with
  | nil => intro idx counter; simp [grepSourceAux, hL]
  | cons l ls ih =>
    intro idx counter
    rw [grepSourceAux]
    simp only [matches_eq_lineMatches, List.any_cons]
    by_cases hm : lineMatches cfg l = true
    · simp [hm, hL, hl, GrepLine.str, mkGrepLine]
    · have hm' : lineMatches cfg l = false := by simpa using hm
      simp only [hm', Bool.false_eq_true, if_false, Bool.false_or]
      exact ih (idx + 1) counter

theorem grepSourceAux_map_str_L (cfg : GrepConfig)
    (hM : cfg.only_files_without_match = true) (name : Str) :
    ∀ lines : List Str, ∀ idx counter,
      ((grepSourceAux cfg name lines idx counter).1).map GrepLine.str
        = if lines.any (lineMatches cfg) then []
          else if counter == 0 then [name ++ ['\n']] else [] := by
  intro lines
  induction lines with
  | nil =>
    intro idx counter
    by_cases hc : counter == 0
    · simp [grepSourceAux, hM, hc, GrepLine.str, mkGrepLine]
    · simp only [Bool.not_eq_true] at hc
      simp [grepSourceAux, hM, hc]
  | cons l ls ih =>
    intro idx counter
    rw [grepSourceAux]
    simp only [matches_eq_lineMatches, List.any_cons]
    by_cases hm : lineMatches cfg l = true
    · simp [hm, hM]
    · have hm' : lineMatches cfg l = false := by simpa using hm
      simp only [hm', Bool.false_eq_true, if_false, Bool.false_or]
      exact ih (idx + 1) counter

theorem intercalate_one (sep a : Str) : List.intercalate sep [a] = a := by
  simp [List.intercalate, List.intersperse]

theorem intercalate_two (sep a b : Str) : List.intercalate sep [a, b] = a ++ sep ++ b := by
  simp [List.intercalate, List.intersperse]

theorem intercalate_three (sep a b c : Str) :
    List.intercalate sep [a, b, c] = a ++ sep ++ b ++ sep ++ c := by
  simp [List.intercalate, List.intersperse]

/-! ### Claim theorems -/

/-- C1: the verdict of `GrepLine.match` equals (some pattern is a
contiguous substring of the line) XOR `invert`, where patterns and the
line are lower-cased before comparison iff `ignore_case`; with
`invert=false` the verdict is true iff some pattern is a substring of
the folded line, and with `invert=true` it is the exact negation of the
`invert=false` verdict for the same line, expression and case
setting. -/
theorem match_verdict (p : GrepParams) (f : Str) (n : Int) (L : Str) :
    ((mkGrepLine f n L (GrepConfig.ofParams p)).matches
       = Bool.xor
           ((GrepConfig.ofParams p).comparable_exprs.any
             (fun e => hasSubstr e (if p.ignore_case then pyLower L else L)))
           p.invert_match)
    ∧ (∀ e s : Str, hasSubstr e s = true ↔ ∃ u v, s = u ++ e ++ v)
    ∧ (p.invert_match = false →
        ((mkGrepLine f n L (GrepConfig.ofParams p)).matches = true
          ↔ ∃ e ∈ (GrepConfig.ofParams p).comparable_exprs,
              ∃ u v, (if p.ignore_case then pyLower L else L) = u ++ e ++ v))
    ∧ ((mkGrepLine f n L (GrepConfig.ofParams (p.setInvert true))).matches
        = !(mkGrepLine f n L (GrepConfig.ofParams (p.setInvert false))).matches) := by
  have base : ∀ q : GrepParams,
      (mkGrepLine f n L (GrepConfig.ofParams q)).matches
        = Bool.xor
            ((GrepConfig.ofParams q).comparable_exprs.any
              (fun e => hasSubstr e (if q.ignore_case then pyLower L else L)))
            q.invert_match := by
    intro q
    rw [matches_eq_lineMatches]
    rfl
  refine ⟨base p, fun e s => hasSubstr_iff e s, ?_, ?_⟩
  · intro hinv
    rw [base p, hinv]
    simp [List.any_eq_true, hasSubstr_iff]
  · rw [base (p.setInvert true), base (p.setInvert false)]
    simp [GrepParams.setInvert, GrepConfig.ofParams, Bool.xor_true, Bool.xor_false]

/-- C1 witness: with the single pattern `"a"`, `invert=false` and the
line `"bac"`, the match verdict is true iff some pattern occurs in the
line. -/
theorem match_verdict_witness :
    (mkGrepLine ['f'] 1 ['b', 'a', 'c']
        (GrepConfig.ofParams ⟨false, false, false, none, false, false, ['a'], []⟩)).matches = true
      ↔ ∃ e ∈ (GrepConfig.ofParams
            (⟨false, false, false, none, false, false, ['a'], []⟩ : GrepParams)).comparable_exprs,
          ∃ u v, (if (false : Bool) then pyLower ['b', 'a', 'c'] else ['b', 'a', 'c']) = u ++ e ++ v :=
  (match_verdict ⟨false, false, false, none, false, false, ['a'], []⟩ ['f'] 1 ['b', 'a', 'c']).2.2.1 rfl

/-- C2: in files-with-match mode the scan of a source stops right after
its first interesting line, emits exactly that one result formatted as
the source name plus a newline, and emits nothing for a source with no
interesting line; over a whole scan the emitted strings are exactly the
names (each with a trailing newline) of the sources with at least one
interesting line, in order. -/
theorem filesWithMatch_scan (cfg : GrepConfig)
    (hl : cfg.only_files_with_matches = true)
    (hL : cfg.only_files_without_match = false)
    (sources : List (Str × List Str)) (name : Str) (lines : List Str) :
    ((∀ l ∈ lines, lineMatches cfg l = false) →
       grepSource cfg name lines = ([], lines.length))
    ∧ (∀ pre m post, lines = pre ++ m :: post →
        (∀ l ∈ pre, lineMatches cfg l = false) → lineMatches cfg m = true →
        grepSource cfg name lines
            = ([mkGrepLine name (Int.ofNat (pre.length + 1)) m cfg], pre.length + 1)
          ∧ (mkGrepLine name (Int.ofNat (pre.length + 1)) m cfg).str = name ++ ['\n'])
    ∧ (grep cfg sources).map GrepLine.str
        = (sources.filter (fun s => s.2.any (lineMatches cfg))).map (fun s => s.1 ++ ['\n']) := by
  refine ⟨?_, ?_, ?_⟩
  · intro h
    rw [grepSource, grepSourceAux_nomatch cfg name lines h 0 0]
    simp [hL]
  · intro pre m post hsplit hpre hm
    constructor
    · rw [grepSource, hsplit, grepSourceAux_skip cfg name (m :: post) pre hpre 0 0]
      rw [grepSourceAux]
      simp [matches_eq_lineMatches, hm, hL, hl]
    · simp [GrepLine.str, mkGrepLine, hl]
  · induction sources with
    | nil => simp [grep]
    | cons s rest ih =>
      have hsrc : ((grepSource cfg s.1 s.2).1).map GrepLine.str
          = if s.2.any (lineMatches cfg) then [s.1 ++ ['\n']] else [] :=
        grepSourceAux_map_str_l cfg hl hL s.1 s.2 0 0
      simp only [grep, List.map_cons, List.flatten_cons, List.map_append] at ih ⊢
      rw [hsrc, List.filter_cons]
      by_cases hany : s.2.any (lineMatches cfg) = true
      · simp [hany, ih]
      · have hany' : s.2.any (lineMatches cfg) = false := by simpa using hany
        simp [hany', ih]

/-- C2 witness: in `-l` mode with pattern `"a"`, the source `"f"` with
lines `"b" "a" "c"` stops after its second line and emits exactly one
result, the source name plus a newline. -/
theorem filesWithMatch_scan_witness :
    grepSource (GrepConfig.ofParams ⟨false, false, false, none, true, false, ['a'], [['f']]⟩)
        ['f'] [['b'], ['a'], ['c']]
      = ([mkGrepLine ['f'] (Int.ofNat 2) ['a']
            (GrepConfig.ofParams ⟨false, false, false, none, true, false, ['a'], [['f']]⟩)], 2)
    ∧ (mkGrepLine ['f'] (Int.ofNat 2) ['a']
        (GrepConfig.ofParams ⟨false, false, false, none, true, false, ['a'], [['f']]⟩)).str
      = ['f'] ++ ['\n'] :=
  (filesWithMatch_scan _ rfl rfl [] ['f'] [['b'], ['a'], ['c']]).2.1
    [['b']] ['a'] [['c']] rfl (by decide) (by decide)

/-- C3: in files-without-match mode the first interesting line of a
source aborts that source without emitting anything, one synthetic
result with line number -1 and empty text is emitted exactly when the
match counter stayed zero, and over a whole scan the emitted strings
are exactly the names (each with a trailing newline) of the sources
without interesting lines, in order. -/
theorem filesWithoutMatch_scan (cfg : GrepConfig)
    (hM : cfg.only_files_without_match = true)
    (sources : List (Str × List Str)) (name : Str) (lines : List Str) :
    ((∀ l ∈ lines, lineMatches cfg l = false) →
       grepSource cfg name lines = ([mkGrepLine name (-1) [] cfg], lines.length))
    ∧ (∀ pre m post, lines = pre ++ m :: post →
        (∀ l ∈ pre, lineMatches cfg l = false) → lineMatches cfg m = true →
        grepSource cfg name lines = ([], pre.length + 1))
    ∧ (grep cfg sources).map GrepLine.str
        = (sources.filter (fun s => !(s.2.any (lineMatches cfg)))).map (fun s => s.1 ++ ['\n']) := by
  refine ⟨?_, ?_, ?_⟩
  · intro h
    rw [grepSource, grepSourceAux_nomatch cfg name lines h 0 0]
    simp [hM]
  · intro pre m post hsplit hpre hm
    rw [grepSource, hsplit, grepSourceAux_skip cfg name (m :: post) pre hpre 0 0]
    rw [grepSourceAux]
    simp [matches_eq_lineMatches, hm, hM]
  · induction sources with
    | nil => simp [grep]
    | cons s rest ih =>
      have hsrc : ((grepSource cfg s.1 s.2).1).map GrepLine.str
          = if s.2.any (lineMatches cfg) then []
            else if (0 : Nat) == 0 then [s.1 ++ ['\n']] else [] :=
        grepSourceAux_map_str_L cfg hM s.1 s.2 0 0
      simp only [grep, List.map_cons, List.flatten_cons, List.map_append] at ih ⊢
      rw [hsrc, List.filter_cons]
      by_cases hany : s.2.any (lineMatches cfg) = true
      · simp [hany, ih]
      · have hany' : s.2.any (lineMatches cfg) = false := by simpa using hany
        simp [hany', ih]

/-- C3 witness: in `-L` mode with pattern `"a"`, the source `"f"` with
lines `"b" "c"` (no match) reads both lines and emits exactly the
synthetic record with line number -1 and empty text. -/
theorem filesWithoutMatch_scan_witness :
    grepSource (GrepConfig.ofParams ⟨false, false, false, none, false, true, ['a'], [['f']]⟩)
        ['f'] [['b'], ['c']]
      = ([mkGrepLine ['f'] (-1) []
            (GrepConfig.ofParams ⟨false, false, false, none, false, true, ['a'], [['f']]⟩)], 2) :=
  (filesWithoutMatch_scan _ rfl [] ['f'] [['b'], ['c']]).1 (by decide)

/-- C4: in normal mode the formatted line is the colon-joined
concatenation of the optional source name, the optional decimal line
number and the raw line text (exactly the raw text when neither
optional field is on); in either files-only mode it is the source name
plus a newline regardless of the other flags. -/
theorem grepLine_format (cfg : GrepConfig) (name : Str) (n : Int) (line : Str) :
    ((cfg.only_files_with_matches || cfg.only_files_without_match) = true →
       (mkGrepLine name n line cfg).str = name ++ ['\n'])
    ∧ (cfg.only_files_with_matches = false → cfg.only_files_without_match = false →
       (mkGrepLine name n line cfg).str
         = (if cfg.with_filename then name ++ [':'] else [])
           ++ (if cfg.showLineNumber then pyIntStr n ++ [':'] else []) ++ line)
    ∧ (cfg.only_files_with_matches = false → cfg.only_files_without_match = false →
       cfg.with_filename = false → cfg.showLineNumber = false →
       (mkGrepLine name n line cfg).str = line) := by
  refine ⟨?_, ?_, ?_⟩
  · intro h
    simp [GrepLine.str, mkGrepLine, h]
  · intro h1 h2
    by_cases hw : cfg.with_filename = true <;> by_cases hn : cfg.showLineNumber = true <;>
      simp [GrepLine.str, mkGrepLine, h1, h2, hw, hn,
        intercalate_one, intercalate_two, intercalate_three]
  · intro h1 h2 h3 h4
    simp [GrepLine.str, mkGrepLine, h1, h2, h3, h4, intercalate_one]

/-- C4 witness: in `-l` mode the output is the file name plus a
newline; in normal mode with `-H` and `-n` the output is
`"f:2:hi\n"`, keeping the raw line's own terminator. -/
theorem grepLine_format_witness :
    (mkGrepLine ['f'] 2 ['h', 'i', '\n']
        (GrepConfig.ofParams ⟨false, false, false, none, true, false, ['a'], [['f']]⟩)).str
      = ['f'] ++ ['\n']
    ∧ (mkGrepLine ['f'] 2 ['h', 'i', '\n']
        (GrepConfig.ofParams ⟨false, false, true, some true, false, false, ['a'], [['f']]⟩)).str
      = ['f', ':', '2', ':', 'h', 'i', '\n'] := by
  constructor
  · exact (grepLine_format _ ['f'] 2 ['h', 'i', '\n']).1 rfl
  · rw [(grepLine_format
        (GrepConfig.ofParams ⟨false, false, true, some true, false, false, ['a'], [['f']]⟩)
        ['f'] 2 ['h', 'i', '\n']).2.1 rfl rfl]
    decide

/-- C5: an explicit `-H`/`-h` request is honored; otherwise the
source-name field is shown iff strictly more than one path was
requested (false for zero or one path, true for two or more). -/
theorem with_filename_resolution (p : GrepParams) :
    (∀ b, p.with_filename = some b → (GrepConfig.ofParams p).with_filename = b)
    ∧ (p.with_filename = none → p.file_paths.length ≤ 1 →
        (GrepConfig.ofParams p).with_filename = false)
    ∧ (p.with_filename = none → 2 ≤ p.file_paths.length →
        (GrepConfig.ofParams p).with_filename = true) := by
  refine ⟨?_, ?_, ?_⟩
  · intro b hb
    simp [GrepConfig.ofParams, hb]
  · intro hb hlen
    simp only [GrepConfig.ofParams, hb]
    simp only [decide_eq_false_iff_not, gt_iff_lt, not_lt]
    omega
  · intro hb hlen
    simp only [GrepConfig.ofParams, hb]
    simp only [decide_eq_true_eq, gt_iff_lt]
    omega

/-- C5 witness: with two requested paths and no explicit flag,
`with_filename` resolves to true. -/
theorem with_filename_resolution_witness :
    (GrepConfig.ofParams
        ⟨false, false, false, none, false, false, ['a'], [['f'], ['g']]⟩).with_filename = true :=
  (with_filename_resolution _).2.2 rfl (by decide)

/-- C6 exhibit (resource release violated): all sources are opened up
front, but when the consumer abandons the generator after pulling the
first result, only the source under iteration is closed — the second
opened source is never closed (while a fully drained run does close
it). -/
theorem abandoned_scan_leaks_handle :
    (ScanEvent.opened ['f', '2']
        ∈ pyGrepRun
            (GrepConfig.ofParams
              ⟨false, false, false, none, false, false, ['a'], [['f', '1'], ['f', '2']]⟩)
            [(['f', '1'], [['a', '\n']]), (['f', '2'], [['a', '\n']])] (some 1))
    ∧ (ScanEvent.closed ['f', '2']
        ∉ pyGrepRun
            (GrepConfig.ofParams
              ⟨false, false, false, none, false, false, ['a'], [['f', '1'], ['f', '2']]⟩)
            [(['f', '1'], [['a', '\n']]), (['f', '2'], [['a', '\n']])] (some 1))
    ∧ (ScanEvent.closed ['f', '2']
        ∈ pyGrepRun
            (GrepConfig.ofParams
              ⟨false, false, false, none, false, false, ['a'], [['f', '1'], ['f', '2']]⟩)
            [(['f', '1'], [['a', '\n']]), (['f', '2'], [['a', '\n']])] none) := by
  decide

/-- C7: if the pattern list contains the empty string, then with
`invert=false` every line matches. -/
theorem empty_pattern_always_matches (p : GrepParams)
    (h1 : [] ∈ (GrepConfig.ofParams p).comparable_exprs)
    (h2 : p.invert_match = false) (f : Str) (n : Int) (L : Str) :
    (mkGrepLine f n L (GrepConfig.ofParams p)).matches = true := by
  rw [matches_eq_lineMatches]
  have hinv : (GrepConfig.ofParams p).invert_match = false := h2
  unfold lineMatches
  rw [hinv]
  simp only [Bool.xor_false]
  exact List.any_eq_true.2 ⟨[], h1, hasSubstr_nil _⟩

/-- C7 witness: the expression `"a\n"` splits into `["a", ""]`; with
the empty pattern present, the line `"xy"` matches. -/
theorem empty_pattern_always_matches_witness :
    (mkGrepLine ['f'] 1 ['x', 'y']
        (GrepConfig.ofParams ⟨false, false, false, none, false, false, ['a', '\n'], []⟩)).matches
      = true :=
  empty_pattern_always_matches ⟨false, false, false, none, false, false, ['a', '\n'], []⟩
    (by decide) rfl ['f'] 1 ['x', 'y']

/-- C8: with no requested paths exactly one input bound to standard
input and named by the stdin sentinel is produced, regardless of the
other flags; with requested paths, exactly one input per path, in
order. -/
theorem compute_inputs_resolution (p : GrepParams) :
    (p.file_paths = [] →
       compute_inputs (GrepConfig.ofParams p) = [⟨stdinName, InputBinding.standardInput⟩])
    ∧ (p.file_paths ≠ [] →
       compute_inputs (GrepConfig.ofParams p)
         = p.file_paths.map (fun path => ⟨path, InputBinding.fileHandle path⟩)) := by
  constructor
  · intro h
    simp [compute_inputs, GrepConfig.ofParams, h]
  · intro h
    have hne : p.file_paths.isEmpty = false := by simpa [List.isEmpty_iff] using h
    simp [compute_inputs, GrepConfig.ofParams, hne]

/-- C8 witness: no paths yield the single stdin input; one path yields
the single file input for that path. -/
theorem compute_inputs_resolution_witness :
    compute_inputs (GrepConfig.ofParams ⟨false, false, false, none, false, false, ['a'], []⟩)
        = [⟨stdinName, InputBinding.standardInput⟩]
    ∧ compute_inputs (GrepConfig.ofParams ⟨false, false, false, none, false, false, ['a'], [['f']]⟩)
        = [⟨['f'], InputBinding.fileHandle ['f']⟩] := by
  constructor
  · exact (compute_inputs_resolution _).1 rfl
  · have h := (compute_inputs_resolution
      ⟨false, false, false, none, false, false, ['a'], [['f']]⟩).2 (by simp)
    simpa using h

/-- C9: `GrepLine` equality is decided exactly by the triple (file
name, line number, raw text); it is false on any non-`GrepLine` value,
and two lines built with different configurations but the same triple
compare equal. -/
theorem grepLine_eq_spec (a b : GrepLine) (tag : Str) :
    (a.eq (PyValue.line b)
       = decide (a.file_name = b.file_name ∧ a.n = b.n ∧ a.line = b.line))
    ∧ a.eq (PyValue.nonLine tag) = false
    ∧ (∀ f : Str, ∀ m : Int, ∀ l : Str, ∀ c1 c2 : GrepConfig,
        (mkGrepLine f m l c1).eq (PyValue.line (mkGrepLine f m l c2)) = true) := by
  refine ⟨?_, rfl, ?_⟩
  · by_cases h1 : a.n = b.n <;> by_cases h2 : a.line = b.line <;>
      by_cases h3 : a.file_name = b.file_name <;>
      simp [GrepLine.eq, h1, h2, h3]
  · intro f m l c1 c2
    simp [GrepLine.eq, mkGrepLine]

/-- C10: lower-casing the whole expression and then splitting on
newlines equals splitting first and lower-casing each pattern, and the
resulting pattern list — in particular `comparable_exprs` — is never
empty. -/
theorem fold_split_commute (e : Str) (p : GrepParams) :
    splitNl (pyLower e) = (splitNl e).map pyLower
    ∧ splitNl e ≠ []
    ∧ (GrepConfig.ofParams p).comparable_exprs ≠ [] :=
  ⟨splitNl_pyLower e, splitNl_ne_nil e, splitNl_ne_nil _⟩

end Sebgrep
